import Mathlib

/-!
Shallow embedding of the waveform analysis engine of
`src/oscilloscope_analyzer.py` (class `AnalysisWorker` and the pass/fail
evaluation of `OscilloscopeAnalyzer`), together with theorems settling the
specification claims.

Modelling conventions:
* Python floats are modelled as rationals (`ℚ`); all claims under scrutiny
  concern branch structure and order comparisons, which agree with exact
  arithmetic.
* `np.log` and `np.sqrt` are transcendental on floats; they are modelled as
  abstract function parameters (`rlog`, `rsqrt`).  No claim depends on their
  values, only on where and whether they are applied.
* Python's `float(...)` conversion of a CSV field (which may raise
  `ValueError`) is modelled as an abstract partial parser
  `pf : List Char → Option ℚ` applied to the split fields.
* The empty dictionary `{}` that `AnalysisWorker` returns for an empty sample
  list — and that `run`/`on_analysis_finished` use as the failure value — is
  modelled as `none : Option AnalysisResult`.
-/

namespace Oscilloscope

/-- One parsed CSV row: `{'time': ..., 'ch1': ..., 'ch2': ...}`. -/
structure Sample where
  time : ℚ
  ch1 : ℚ
  ch2 : ℚ
deriving DecidableEq, Repr

/-- Python's `max` over a nonempty list (`0` on `[]`, a case never used). -/
def listMax : List ℚ → ℚ
  | [] => 0
  | x :: xs => xs.foldl max x

/-- Python's `min` over a nonempty list (`0` on `[]`, a case never used). -/
def listMin : List ℚ → ℚ
  | [] => 0
  | x :: xs => xs.foldl min x

/-- Model of `np.mean` over a list of rationals. -/
def listMean (l : List ℚ) : ℚ := l.sum / (l.length : ℚ)

/-! ## WaveformParser: `AnalysisWorker.load_csv_data` -/

/-- The literal header marker searched for by `load_csv_data`. -/
def headerMarker : List Char := "TIME,CH1,CH2".toList

/-- Substring containment on character lists (Python's `pat in line`). -/
def containsSub (pat s : List Char) : Bool := s.tails.any (fun t => pat.isPrefixOf t)

/-- Whether a line contains the header marker (`'TIME,CH1,CH2' in line`). -/
def containsMarker (line : String) : Bool := containsSub headerMarker line.toList

/-- First line index containing the header marker (the Python scan loop). -/
def findHeader : List String → Option Nat
  | [] => none
  | l :: ls => if containsMarker l then some 0 else (findHeader ls).map (· + 1)

/-- The error raised when no header line is found
(`ValueError("Could not find data header in CSV file")`). -/
inductive FormatError where
  | headerNotFound
deriving DecidableEq, Repr

/-- Python's `str.strip()` on a character list: drop whitespace from both
ends. -/
def stripStr (cs : List Char) : List Char :=
  ((cs.dropWhile Char.isWhitespace).reverse.dropWhile Char.isWhitespace).reverse

/-- Python's `str.split(',')` on a character list: `"" ↦ [""]`,
separators produce empty fields. -/
def splitComma : List Char → List (List Char)
  | [] => [[]]
  | c :: cs =>
    if c = ',' then [] :: splitComma cs
    else
      match splitComma cs with
      | [] => [[c]]
      | p :: ps => (c :: p) :: ps

/-- Parse one data row: strip, skip blank lines, split on commas, require at
least 3 fields, convert the first three via `pf` (all-or-nothing, a failed
conversion skips the row), and scale time from seconds to milliseconds. -/
def parseRow (pf : List Char → Option ℚ) (line : String) : Option Sample :=
  let s := stripStr line.toList
  if s = [] then none
  else
    let parts := splitComma s
    if 3 ≤ parts.length then
      match pf (parts.getD 0 []), pf (parts.getD 1 []), pf (parts.getD 2 []) with
      | some t, some c1, some c2 => some { time := t * 1000, ch1 := c1, ch2 := c2 }
      | _, _, _ => none
    else none

/-- Model of `AnalysisWorker.load_csv_data`, over the list of input lines: find the
header line, then parse every subsequent line, silently skipping invalid
ones. -/
def load_csv_data (pf : List Char → Option ℚ) (lines : List String) :
    Except FormatError (List Sample) :=
  match findHeader lines with
  | none => .error .headerNotFound
  | some i => .ok ((lines.drop (i + 1)).filterMap (parseRow pf))

/-! ## RingdownEstimator: `AnalysisWorker.calculate_ringdown` -/

/-- The dictionary `{'ringdown_voltage': ..., 'decay_constant': ...}`. -/
structure RingdownResult where
  ringdown_voltage : ℚ
  decay_constant : ℚ
deriving DecidableEq, Repr

/-- Model of `AnalysisWorker.calculate_ringdown`.  `rlog` models `np.log`.
`abs_values.index(max(abs_values))` is the first index attaining the maximum
absolute value; the decay segment is `values[max_idx : min(max_idx+100, len)]`;
`decay_segment[0]` and `decay_segment[-1]` are modelled with `headD`/`getLastD`
(the segment is nonempty whenever this branch is reached). -/
def calculate_ringdown (rlog : ℚ → ℚ) (values : List ℚ) : RingdownResult :=
  if values.length < 50 then { ringdown_voltage := 0, decay_constant := 0 }
  else
    let abs_values := values.map (fun v => |v|)
    let max_idx := abs_values.findIdx (fun v => decide (v = listMax abs_values))
    if values.length - 20 ≤ max_idx then { ringdown_voltage := 0, decay_constant := 0 }
    else
      let decay_segment := (values.drop max_idx).take 100
      let initial_amp := |decay_segment.headD 0|
      let final_amp := |decay_segment.getLastD 0|
      { ringdown_voltage := (initial_amp - final_amp) * 1000,
        decay_constant :=
          if final_amp < initial_amp ∧ 0 < final_amp then
            rlog (initial_amp / final_amp) / (decay_segment.length : ℚ)
          else 0 }

/-- Reference definition of the ringdown estimator, written from the spec's
words (§4.4 / claim C3): fewer than 50 samples, or a peak within the last 20
samples, gives the zero sentinel; otherwise the decay window is up to 100
samples starting at the peak index, clipped to the sequence end,
`ringdown_voltage = (abs(first) - abs(last)) * 1000`, and
`decay_constant = ln(initial/final) / window_length` exactly when
`initial > final > 0`, else `0`. -/
def ringdownSpec (rlog : ℚ → ℚ) (values : List ℚ) : RingdownResult :=
  let abs_values := values.map (fun v => |v|)
  let peak_idx := abs_values.findIdx (fun v => decide (v = listMax abs_values))
  if values.length < 50 ∨ values.length - 20 ≤ peak_idx then
    { ringdown_voltage := 0, decay_constant := 0 }
  else
    let window := (values.drop peak_idx).take 100
    let initial_amp := |window.headD 0|
    let final_amp := |window.getLastD 0|
    { ringdown_voltage := (initial_amp - final_amp) * 1000,
      decay_constant :=
        if initial_amp > final_amp ∧ final_amp > 0 then
          rlog (initial_amp / final_amp) / (window.length : ℚ)
        else 0 }

/-! ## TriggerDetector: the scan loop inside `calculate_analysis` -/

/-- One element of `trigger_points`:
`{'time': ..., 'index': ..., 'current': ...}`. -/
structure TriggerEvent where
  time : ℚ
  index : Nat
  current : ℚ
deriving DecidableEq, Repr

/-- Reading `data[i]['ch2']`, with the all-zero sample for out-of-range indices
(the loop only reads in-range indices). -/
def ch2At (data : List Sample) (i : Nat) : ℚ :=
  (data.getD i { time := 0, ch1 := 0, ch2 := 0 }).ch2

/-- Reading `data[i]['time']`, with the all-zero sample for out-of-range indices. -/
def timeAt (data : List Sample) (i : Nat) : ℚ :=
  (data.getD i { time := 0, ch1 := 0, ch2 := 0 }).time

/-- The trigger event the loop appends at index `i`. -/
def mkEvent (data : List Sample) (i : Nat) : TriggerEvent :=
  { time := timeAt data i, index := i, current := ch2At data i }

/-- One iteration of the trigger scan loop (body of `for i in range(1, len(data))`):
state is `(in_trigger, trigger_points)`. -/
def triggerStep (data : List Sample) (thr : ℚ) (st : Bool × List TriggerEvent)
    (i : Nat) : Bool × List TriggerEvent :=
  let prev_current := |ch2At data (i - 1)|
  let current_current := |ch2At data i|
  if !st.1 && decide (thr < current_current) && decide (prev_current ≤ thr) then
    (true, st.2 ++ [mkEvent data i])
  else if st.1 && decide (current_current ≤ thr) then
    (false, st.2)
  else st

/-- The whole trigger scan loop: fold the body over `i = 1, …, len(data) - 1`
starting from `in_trigger = False`, `trigger_points = []`. -/
def triggerLoop (data : List Sample) (thr : ℚ) : Bool × List TriggerEvent :=
  (List.range' 1 (data.length - 1)).foldl (triggerStep data thr) (false, [])

/-- The `trigger_points` list produced by `calculate_analysis`. -/
def trigger_points (data : List Sample) (thr : ℚ) : List TriggerEvent :=
  (triggerLoop data thr).2

/-- The value of `in_trigger` after the loop iterations `1, …, k` (so `stateAfter k = false`
is the `BelowOrAt` detector state entering iteration `k + 1`). -/
def stateAfter (data : List Sample) (thr : ℚ) : Nat → Bool
  | 0 => false
  | i + 1 =>
    let s := stateAfter data thr i
    if !s && decide (thr < |ch2At data (i + 1)|) && decide (|ch2At data i| ≤ thr) then
      true
    else if s && decide (|ch2At data (i + 1)| ≤ thr) then false
    else s

/-- Whether loop iteration `i` appends a trigger event. -/
def emittedAt (data : List Sample) (thr : ℚ) : Nat → Bool
  | 0 => false
  | j + 1 =>
    !stateAfter data thr j && decide (thr < |ch2At data (j + 1)|) &&
      decide (|ch2At data j| ≤ thr)

/-- The trigger events appended during iterations `1, …, k`, in order. -/
def eventsUpTo (data : List Sample) (thr : ℚ) : Nat → List TriggerEvent
  | 0 => []
  | k + 1 =>
    eventsUpTo data thr k ++
      if emittedAt data thr (k + 1) then [mkEvent data (k + 1)] else []

/-! ## PassFailEvaluator: `OscilloscopeAnalyzer.evaluate_pass_fail` -/

/-- The `'pass'` / `'fail'` overall verdict strings. -/
inductive PassFail where
  | pass
  | fail
deriving DecidableEq, Repr

/-- The `results` dictionary plus the `overall` verdict. -/
structure Verdict where
  peak_to_peak : Bool
  trigger_current : Bool
  noise : Bool
  ringdown : Bool
  overall : PassFail
deriving DecidableEq, Repr

/-- Model of `OscilloscopeAnalyzer.evaluate_pass_fail`, as a pure function of the
measured values (`ch1['peak_to_peak']`, `ch1['noise']`,
`ch1['ringdown']['ringdown_voltage']`), the trigger-current spin box value,
the six-or-eight limit spin box values, and the active test configuration's
`has_ringdown` flag.  Each chained comparison `lsl <= v <= usl` is inclusive;
`results['ringdown']` is `True` when the configuration has no ringdown
requirement; `overall` is `'pass'` iff `all(results.values())`. -/
def evaluate_pass_fail (ptp noise ringdown_voltage trigger_setting : ℚ)
    (peak_lsl peak_usl trigger_lsl trigger_usl noise_lsl noise_usl
      ringdown_lsl ringdown_usl : ℚ) (has_ringdown : Bool) : Verdict :=
  let p := decide (peak_lsl ≤ ptp ∧ ptp ≤ peak_usl)
  let t := decide (trigger_lsl ≤ trigger_setting ∧ trigger_setting ≤ trigger_usl)
  let n := decide (noise_lsl ≤ noise ∧ noise ≤ noise_usl)
  let r :=
    if has_ringdown then
      decide (ringdown_lsl ≤ ringdown_voltage ∧ ringdown_voltage ≤ ringdown_usl)
    else true
  { peak_to_peak := p, trigger_current := t, noise := n, ringdown := r,
    overall := if p && t && n && r then .pass else .fail }

/-! ## MetricCalculator and pipeline: `AnalysisWorker.calculate_analysis` -/

/-- The `'ch1'` sub-dictionary of the analysis result. -/
structure Ch1Stats where
  min : ℚ
  max : ℚ
  peak_to_peak : ℚ
  rms : ℚ
  noise : ℚ
  ringdown : RingdownResult
deriving DecidableEq, Repr

/-- The `'ch2'` sub-dictionary of the analysis result. -/
structure Ch2Stats where
  min : ℚ
  max : ℚ
  peak_to_peak : ℚ
  rms : ℚ
deriving DecidableEq, Repr

/-- The `'trigger'` sub-dictionary of the analysis result. -/
structure TriggerInfo where
  threshold : ℚ
  points : List TriggerEvent
  count : Nat
deriving DecidableEq, Repr

/-- The `'metadata'` sub-dictionary of the analysis result. -/
structure Metadata where
  data_points : Nat
  sample_rate : ℚ
  duration : ℚ
  time_start : ℚ
  time_end : ℚ
deriving DecidableEq, Repr

/-- The dictionary returned by `calculate_analysis` on nonempty data. -/
structure AnalysisResult where
  raw_data : List Sample
  ch1 : Ch1Stats
  ch2 : Ch2Stats
  trigger : TriggerInfo
  metadata : Metadata
deriving DecidableEq, Repr

/-- Model of `AnalysisWorker.calculate_analysis`.  `rsqrt` models `np.sqrt`, `rlog`
models `np.log`.  The `{}` returned for empty data — which is also the value
the worker emits on any failure — is `none`. -/
def calculate_analysis (rsqrt rlog : ℚ → ℚ) (data : List Sample) (thr : ℚ) :
    Option AnalysisResult :=
  if data.isEmpty then none
  else
    let times := data.map (fun d => d.time)
    let ch1_values := data.map (fun d => d.ch1)
    let ch2_values := data.map (fun d => d.ch2)
    let ch1_min := listMin ch1_values
    let ch1_max := listMax ch1_values
    let ch1_peak_to_peak := (ch1_max - ch1_min) * 1000
    let ch2_min := listMin ch2_values
    let ch2_max := listMax ch2_values
    let ch2_peak_to_peak := ch2_max - ch2_min
    let ch1_rms := rsqrt (listMean (ch1_values.map (fun v => v ^ 2)))
    let ch2_rms := rsqrt (listMean (ch2_values.map (fun v => v ^ 2)))
    let ch1_mean := listMean ch1_values
    let ch1_noise :=
      rsqrt (listMean (ch1_values.map (fun v => (v - ch1_mean) ^ 2))) * 1000
    let ringdown := calculate_ringdown rlog ch1_values
    let sample_rate :=
      if 1 < data.length then
        let duration := listMax times - listMin times
        if 0 < duration then (data.length : ℚ) / (duration / 1000) else 0
      else 0
    some
      { raw_data := data,
        ch1 :=
          { min := ch1_min, max := ch1_max, peak_to_peak := ch1_peak_to_peak,
            rms := ch1_rms, noise := ch1_noise, ringdown := ringdown },
        ch2 :=
          { min := ch2_min, max := ch2_max, peak_to_peak := ch2_peak_to_peak,
            rms := ch2_rms },
        trigger :=
          { threshold := thr, points := trigger_points data thr,
            count := (trigger_points data thr).length },
        metadata :=
          { data_points := data.length, sample_rate := sample_rate,
            duration := listMax times - listMin times,
            time_start := listMin times, time_end := listMax times } }

/-- The pipeline `AnalysisWorker.run` body: parse the lines, then analyze.
A header failure propagates; an empty parse yields `.ok none` (the `{}`
failure value). -/
def analyze (pf : List Char → Option ℚ) (rsqrt rlog : ℚ → ℚ)
    (lines : List String) (thr : ℚ) : Except FormatError (Option AnalysisResult) :=
  (load_csv_data pf lines).map (fun data => calculate_analysis rsqrt rlog data thr)

/-! ## Concrete inputs used by witnesses and counterexamples -/

/-- A field parser accepting nothing (any `float(...)` call fails). -/
def pfNone : List Char → Option ℚ := fun _ => none

/-- Input whose only line is the header row. -/
def headerOnlyLines : List String := ["TIME,CH1,CH2"]

/-- Header row followed by one malformed row. -/
def headerJunkLines : List String := ["TIME,CH1,CH2", "junk"]

/-- Input containing no header marker on any line. -/
def noHeaderLines : List String := ["hello", "1,2,3"]

/-- Two samples, channel 2 rising through magnitude 1 at index 1. -/
def risingData : List Sample := [⟨0, 0, 0⟩, ⟨5, 0, 2⟩]

/-- Four samples with two rising edges (at indices 1 and 3). -/
def doubleRiseData : List Sample :=
  [⟨0, 0, 0⟩, ⟨1, 0, 2⟩, ⟨2, 0, 0⟩, ⟨3, 0, 2⟩]

/-- Two rising edges but with strictly decreasing sample times. -/
def fallingTimeData : List Sample :=
  [⟨10, 0, 0⟩, ⟨9, 0, 2⟩, ⟨8, 0, 0⟩, ⟨7, 0, 2⟩]

/-- A single sample. -/
def oneSample : List Sample := [⟨0, 1, 2⟩]

/-- A trigger event placeholder used with `List.getD`. -/
def evDefault : TriggerEvent := ⟨0, 0, 0⟩

/-! ## Lemmas about `listMax` / `listMin` -/

theorem le_foldl_max (l : List ℚ) (a : ℚ) : a ≤ l.foldl max a := by
  induction l generalizing a with
  | nil => exact le_refl a
  | cons y ys ih =>
    simp only [List.foldl_cons]
    exact le_trans (le_max_left a y) (ih (max a y))

theorem foldl_min_le (l : List ℚ) (a : ℚ) : l.foldl min a ≤ a := by
  induction l generalizing a with
  | nil => exact le_refl a
  | cons y ys ih =>
    simp only [List.foldl_cons]
    exact le_trans (ih (min a y)) (min_le_left a y)

theorem mem_le_foldl_max (l : List ℚ) : ∀ a x, x ∈ l → x ≤ l.foldl max a := by
  induction l with
  | nil => intro a x hx; cases hx
  | cons y ys ih =>
    intro a x hx
    simp only [List.foldl_cons]
    rcases List.mem_cons.1 hx with h | h
    · subst h; exact le_trans (le_max_right a x) (le_foldl_max ys (max a x))
    · exact ih (max a y) x h

theorem foldl_min_le_mem (l : List ℚ) : ∀ a x, x ∈ l → l.foldl min a ≤ x := by
  induction l with
  | nil => intro a x hx; cases hx
  | cons y ys ih =>
    intro a x hx
    simp only [List.foldl_cons]
    rcases List.mem_cons.1 hx with h | h
    · subst h; exact le_trans (foldl_min_le ys (min a x)) (min_le_right a x)
    · exact ih (min a y) x h

theorem foldl_max_mem (l : List ℚ) : ∀ a, l.foldl max a = a ∨ l.foldl max a ∈ l := by
  induction l with
  | nil => intro a; exact Or.inl rfl
  | cons y ys ih =>
    intro a
    simp only [List.foldl_cons]
    rcases ih (max a y) with h | h
    · rcases le_total a y with hy | hy
      · right; rw [h, max_eq_right hy]; exact List.mem_cons_self y ys
      · left; rw [h, max_eq_left hy]
    · right; exact List.mem_cons_of_mem y h

theorem foldl_min_mem (l : List ℚ) : ∀ a, l.foldl min a = a ∨ l.foldl min a ∈ l := by
  induction l with
  | nil => intro a; exact Or.inl rfl
  | cons y ys ih =>
    intro a
    simp only [List.foldl_cons]
    rcases ih (min a y) with h | h
    · rcases le_total y a with hy | hy
      · right; rw [h, min_eq_right hy]; exact List.mem_cons_self y ys
      · left; rw [h, min_eq_left hy]
    · right; exact List.mem_cons_of_mem y h

theorem le_listMax {l : List ℚ} {x : ℚ} (hx : x ∈ l) : x ≤ listMax l := by
  cases l with
  | nil => cases hx
  | cons y ys =>
    rcases List.mem_cons.1 hx with h | h
    · subst h; exact le_foldl_max ys x
    · exact mem_le_foldl_max ys y x h

theorem listMin_le {l : List ℚ} {x : ℚ} (hx : x ∈ l) : listMin l ≤ x := by
  cases l with
  | nil => cases hx
  | cons y ys =>
    rcases List.mem_cons.1 hx with h | h
    · subst h; exact foldl_min_le ys x
    · exact foldl_min_le_mem ys y x h

theorem listMax_mem {l : List ℚ} (h : l ≠ []) : listMax l ∈ l := by
  cases l with
  | nil => exact absurd rfl h
  | cons y ys =>
    rcases foldl_max_mem ys y with h1 | h1
    · rw [listMax, h1]; exact List.mem_cons_self y ys
    · exact List.mem_cons_of_mem y h1

theorem listMin_le_listMax {l : List ℚ} (h : l ≠ []) : listMin l ≤ listMax l :=
  listMin_le (listMax_mem h)

/-! ## Lemmas about the trigger scan loop -/

theorem triggerLoop_inv (data : List Sample) (thr : ℚ) (k : Nat) :
    (List.range' 1 k).foldl (triggerStep data thr) (false, []) =
      (stateAfter data thr k, eventsUpTo data thr k) := by
  induction k with
  | zero => rfl
  | succ k ih =>
    rw [List.range'_concat, List.foldl_append, ih]
    simp only [List.foldl_cons, List.foldl_nil]
    have hidx : 1 + 1 * k = k + 1 := by omega
    rw [hidx]
    show triggerStep data thr (stateAfter data thr k, eventsUpTo data thr k) (k + 1) =
      (stateAfter data thr (k + 1), eventsUpTo data thr (k + 1))
    simp only [triggerStep, stateAfter, eventsUpTo, emittedAt, Nat.add_sub_cancel]
    obtain hs | hs := Bool.eq_false_or_eq_true (stateAfter data thr k) <;>
      by_cases h1 : thr < |ch2At data (k + 1)| <;>
        by_cases h2 : |ch2At data k| ≤ thr <;>
          by_cases h3 : |ch2At data (k + 1)| ≤ thr <;>
            simp [hs, h1, h2, h3]

theorem trigger_points_eq (data : List Sample) (thr : ℚ) :
    trigger_points data thr = eventsUpTo data thr (data.length - 1) := by
  unfold trigger_points triggerLoop
  rw [triggerLoop_inv]

theorem mem_eventsUpTo (data : List Sample) (thr : ℚ) (ev : TriggerEvent) (k : Nat) :
    ev ∈ eventsUpTo data thr k ↔
      ∃ i, 1 ≤ i ∧ i ≤ k ∧ emittedAt data thr i = true ∧ ev = mkEvent data i := by
  induction k with
  | zero =>
    constructor
    · intro h; cases h
    · rintro ⟨i, hi1, hi2, -, -⟩; omega
  | succ k ih =>
    simp only [eventsUpTo, List.mem_append]
    constructor
    · rintro (h | h)
      · obtain ⟨i, hi1, hi2, he, hev⟩ := ih.1 h
        exact ⟨i, hi1, by omega, he, hev⟩
      · by_cases hem : emittedAt data thr (k + 1) = true
        · rw [if_pos hem] at h
          rcases List.mem_singleton.1 h with rfl
          exact ⟨k + 1, by omega, le_refl _, hem, rfl⟩
        · rw [if_neg hem] at h
          cases h
    · rintro ⟨i, hi1, hi2, he, hev⟩
      rcases Nat.lt_or_ge i (k + 1) with hik | hik
      · exact Or.inl (ih.2 ⟨i, hi1, by omega, he, hev⟩)
      · have : i = k + 1 := by omega
        subst this
        exact Or.inr (by rw [if_pos he]; exact hev ▸ List.mem_singleton.2 rfl)

theorem mem_trigger_points (data : List Sample) (thr : ℚ) (ev : TriggerEvent) :
    ev ∈ trigger_points data thr ↔
      ∃ i, 1 ≤ i ∧ i ≤ data.length - 1 ∧ emittedAt data thr i = true ∧
        ev = mkEvent data i := by
  rw [trigger_points_eq]
  exact mem_eventsUpTo data thr ev (data.length - 1)

theorem eventsUpTo_pairwise (data : List Sample) (thr : ℚ) (k : Nat) :
    (eventsUpTo data thr k).Pairwise (fun a b => a.index < b.index) := by
  induction k with
  | zero => exact List.Pairwise.nil
  | succ k ih =>
    rw [eventsUpTo, List.pairwise_append]
    refine ⟨ih, ?_, ?_⟩
    · by_cases hem : emittedAt data thr (k + 1) = true
      · rw [if_pos hem]; exact List.pairwise_singleton _ _
      · rw [if_neg hem]; exact List.Pairwise.nil
    · intro a ha b hb
      obtain ⟨i, -, hi2, -, hai⟩ := (mem_eventsUpTo data thr a k).1 ha
      by_cases hem : emittedAt data thr (k + 1) = true
      · rw [if_pos hem] at hb
        rcases List.mem_singleton.1 hb with rfl
        subst hai
        simp only [mkEvent]
        omega
      · rw [if_neg hem] at hb
        cases hb

theorem trigger_points_pairwise (data : List Sample) (thr : ℚ) :
    (trigger_points data thr).Pairwise (fun a b => a.index < b.index) := by
  rw [trigger_points_eq]
  exact eventsUpTo_pairwise data thr (data.length - 1)

theorem emittedAt_lt_length (data : List Sample) (thr : ℚ) (hthr : 0 < thr)
    {i : Nat} (h : emittedAt data thr i = true) : i < data.length := by
  cases i with
  | zero => simp [emittedAt] at h
  | succ j =>
    simp only [emittedAt, Bool.and_eq_true, decide_eq_true_eq] at h
    obtain ⟨⟨-, hlt⟩, -⟩ := h
    by_contra hge
    push_neg at hge
    have hz : ch2At data (j + 1) = 0 := by
      unfold ch2At
      rw [List.getD_eq_default _ _ hge]
    rw [hz] at hlt
    simp only [abs_zero] at hlt
    exact absurd hlt (not_lt.2 (le_of_lt hthr))

/-! ## Claim theorems -/

/-- C2: for every analysis measurement, limit pair set, trigger-current
setting and requires-ringdown flag, each evaluated criterion of
`evaluate_pass_fail` passes exactly when `lsl ≤ measured_value ≤ usl` with
both bounds inclusive; the ringdown criterion is `true` whenever the test
configuration does not require ringdown; and the overall verdict is `'pass'`
exactly when every per-criterion result is `true`. -/
theorem evaluate_pass_fail_correct
    (ptp noise ringdown_voltage trigger_setting
      peak_lsl peak_usl trigger_lsl trigger_usl noise_lsl noise_usl
      ringdown_lsl ringdown_usl : ℚ) (has_ringdown : Bool) :
    ((evaluate_pass_fail ptp noise ringdown_voltage trigger_setting peak_lsl peak_usl
        trigger_lsl trigger_usl noise_lsl noise_usl ringdown_lsl ringdown_usl
        has_ringdown).peak_to_peak = true ↔ peak_lsl ≤ ptp ∧ ptp ≤ peak_usl) ∧
    ((evaluate_pass_fail ptp noise ringdown_voltage trigger_setting peak_lsl peak_usl
        trigger_lsl trigger_usl noise_lsl noise_usl ringdown_lsl ringdown_usl
        has_ringdown).trigger_current = true ↔
      trigger_lsl ≤ trigger_setting ∧ trigger_setting ≤ trigger_usl) ∧
    ((evaluate_pass_fail ptp noise ringdown_voltage trigger_setting peak_lsl peak_usl
        trigger_lsl trigger_usl noise_lsl noise_usl ringdown_lsl ringdown_usl
        has_ringdown).noise = true ↔ noise_lsl ≤ noise ∧ noise ≤ noise_usl) ∧
    (has_ringdown = true →
      ((evaluate_pass_fail ptp noise ringdown_voltage trigger_setting peak_lsl peak_usl
          trigger_lsl trigger_usl noise_lsl noise_usl ringdown_lsl ringdown_usl
          has_ringdown).ringdown = true ↔
        ringdown_lsl ≤ ringdown_voltage ∧ ringdown_voltage ≤ ringdown_usl)) ∧
    (has_ringdown = false →
      (evaluate_pass_fail ptp noise ringdown_voltage trigger_setting peak_lsl peak_usl
        trigger_lsl trigger_usl noise_lsl noise_usl ringdown_lsl ringdown_usl
        has_ringdown).ringdown = true) ∧
    ((evaluate_pass_fail ptp noise ringdown_voltage trigger_setting peak_lsl peak_usl
        trigger_lsl trigger_usl noise_lsl noise_usl ringdown_lsl ringdown_usl
        has_ringdown).overall = PassFail.pass ↔
      ((evaluate_pass_fail ptp noise ringdown_voltage trigger_setting peak_lsl peak_usl
          trigger_lsl trigger_usl noise_lsl noise_usl ringdown_lsl ringdown_usl
          has_ringdown).peak_to_peak = true ∧
        (evaluate_pass_fail ptp noise ringdown_voltage trigger_setting peak_lsl peak_usl
          trigger_lsl trigger_usl noise_lsl noise_usl ringdown_lsl ringdown_usl
          has_ringdown).trigger_current = true ∧
        (evaluate_pass_fail ptp noise ringdown_voltage trigger_setting peak_lsl peak_usl
          trigger_lsl trigger_usl noise_lsl noise_usl ringdown_lsl ringdown_usl
          has_ringdown).noise = true ∧
        (evaluate_pass_fail ptp noise ringdown_voltage trigger_setting peak_lsl peak_usl
          trigger_lsl trigger_usl noise_lsl noise_usl ringdown_lsl ringdown_usl
          has_ringdown).ringdown = true)) := by
  refine ⟨by simp [evaluate_pass_fail], by simp [evaluate_pass_fail],
    by simp [evaluate_pass_fail], ?_, ?_, ?_⟩
  · intro h; subst h; simp [evaluate_pass_fail]
  · intro h; subst h; simp [evaluate_pass_fail]
  · unfold evaluate_pass_fail
    by_cases hp : peak_lsl ≤ ptp ∧ ptp ≤ peak_usl <;>
      by_cases ht : trigger_lsl ≤ trigger_setting ∧ trigger_setting ≤ trigger_usl <;>
        by_cases hn : noise_lsl ≤ noise ∧ noise ≤ noise_usl <;>
          by_cases hr : ringdown_lsl ≤ ringdown_voltage ∧ ringdown_voltage ≤ ringdown_usl <;>
            cases has_ringdown <;>
              simp [hp, ht, hn, hr]

/-- C3: for every channel-1 value sequence (and every model of `np.log`),
`calculate_ringdown` returns exactly the spec's reference definition: the
zero sentinel for fewer than 50 samples or a peak within the last 20
samples, and otherwise the two-point window formulas with the
`initial > final > 0` guard on the decay constant. -/
theorem calculate_ringdown_eq_spec (rlog : ℚ → ℚ) (values : List ℚ) :
    calculate_ringdown rlog values = ringdownSpec rlog values := by
  unfold calculate_ringdown ringdownSpec
  by_cases h1 : values.length < 50
  · simp [h1]
  · by_cases h2 : values.length - 20 ≤
      (values.map (fun v => |v|)).findIdx
        (fun v => decide (v = listMax (values.map (fun v => |v|))))
    · simp [h1, h2]
    · simp [h1, h2, and_comm, gt_iff_lt]

/-- C10: for every channel-1 value sequence (and every model of `np.log`),
the `ringdown_voltage` returned by `calculate_ringdown` is nonnegative: it is
`0` in the sentinel cases, and otherwise the decay window starts at the
sample of globally maximal absolute value, so the window's first absolute
value dominates its last. -/
theorem calculate_ringdown_voltage_nonneg (rlog : ℚ → ℚ) (values : List ℚ) :
    0 ≤ (calculate_ringdown rlog values).ringdown_voltage := by
  unfold calculate_ringdown
  by_cases h1 : values.length < 50
  · simp [h1]
  · rw [if_neg h1]
    by_cases h2 : values.length - 20 ≤
      (values.map (fun v => |v|)).findIdx
        (fun v => decide (v = listMax (values.map (fun v => |v|))))
    · simp [h2]
    · rw [if_neg h2]
      set A := values.map (fun v => |v|) with hA
      set M := listMax A with hM
      set idx := A.findIdx (fun v => decide (v = M)) with hidxdef
      simp only []
      -- bounds on the peak index
      have hlen : 50 ≤ values.length := by omega
      have hidxlt : idx < values.length - 20 := by omega
      have hidxlen : idx < values.length := by omega
      have hAlen : idx < A.length := by
        rw [hA, List.length_map]; exact hidxlen
      -- the window is nonempty
      have hdlen : (values.drop idx).length = values.length - idx := List.length_drop idx values
      have hwlen : 0 < ((values.drop idx).take 100).length := by
        rw [List.length_take, hdlen]
        exact lt_min (by norm_num) (by omega)
      have hwne : (values.drop idx).take 100 ≠ [] := List.ne_nil_of_length_pos hwlen
      -- the first window sample attains the global maximum of |·|
      have hfind : A.get ⟨idx, hAlen⟩ = M := by
        have := @List.findIdx_getElem _ (fun v => decide (v = M)) A hAlen
        simpa using this
      have hhead : ((values.drop idx).take 100).headD 0 = values.get ⟨idx, hidxlen⟩ := by
        rw [List.headD_eq_head?, List.head?_eq_head hwne, Option.getD_some,
          List.head_eq_getElem]
        rw [List.getElem_take, List.getElem_drop]
        simp
      have hinit : |((values.drop idx).take 100).headD 0| = M := by
        rw [hhead]
        have hAg : A.get ⟨idx, hAlen⟩ = |values.get ⟨idx, hidxlen⟩| := by
          simp [hA]
        rw [hAg] at hfind
        exact hfind
      -- the last window sample is dominated by the global maximum of |·|
      have hlast_mem : ((values.drop idx).take 100).getLastD 0 ∈ values := by
        rw [List.getLastD_eq_getLast?, List.getLast?_eq_getLast _ hwne, Option.getD_some]
        exact List.Sublist.mem (List.getLast_mem hwne)
          ((List.take_sublist _ _).trans (List.drop_sublist _ _))
      have hfinal : |((values.drop idx).take 100).getLastD 0| ≤ M := by
        rw [hM, hA]
        exact le_listMax (List.mem_map_of_mem (fun v => |v|) hlast_mem)
      -- conclude
      rw [hinit]
      exact mul_nonneg (sub_nonneg.2 hfinal) (by norm_num)

/-- C7: for every raw input in which no line contains the exact
`TIME,CH1,CH2` column marker, `load_csv_data` fails with the header-not-found
error, the error is surfaced through the whole pipeline, and no partial
result is produced. -/
theorem load_csv_data_no_header (pf : List Char → Option ℚ) (rsqrt rlog : ℚ → ℚ)
    (lines : List String) (thr : ℚ)
    (h : ∀ line ∈ lines, containsMarker line = false) :
    load_csv_data pf lines = Except.error FormatError.headerNotFound ∧
      analyze pf rsqrt rlog lines thr = Except.error FormatError.headerNotFound := by
  have hfind : findHeader lines = none := by
    induction lines with
    | nil => rfl
    | cons l ls ih =>
      have hl : containsMarker l = false := h l (List.mem_cons_self l ls)
      have hls : findHeader ls = none :=
        ih (fun x hx => h x (List.mem_cons_of_mem l hx))
      simp [findHeader, hl, hls]
  have hload : load_csv_data pf lines = Except.error FormatError.headerNotFound := by
    simp [load_csv_data, hfind]
  exact ⟨hload, by simp [analyze, hload, Except.map]⟩

/-- C1 counterexample: on the concrete input whose only line is the header
row, the pipeline does not produce an analysis result carrying
`data_points == 0`; it produces `Except.ok none`, where `none` models the
empty dictionary `{}` — precisely the value `AnalysisWorker.run` emits on
failure, which `on_analysis_finished` reports as "Failed to analyze data". -/
theorem analyze_header_only_counterexample :
    analyze pfNone id id headerOnlyLines 1 = Except.ok none ∧
      ¬ ∃ res : AnalysisResult,
          analyze pfNone id id headerOnlyLines 1 = Except.ok (some res) := by
  have h : analyze pfNone id id headerOnlyLines 1 = Except.ok none := by rfl
  refine ⟨h, ?_⟩
  rintro ⟨res, hres⟩
  rw [h] at hres
  exact Option.noConfusion (Except.ok.inj hres)

/-- C1 (amended): if the header row is found on some line and every
subsequent line fails row parsing, then `load_csv_data` succeeds with the
empty sample sequence (it does not raise), but `calculate_analysis` maps that
empty sequence to the empty dictionary `{}` (modelled `none`) — the same
value the worker emits on failure — so the pipeline yields `Except.ok none`
and no result with `data_points == 0` and `sample_rate_hz == 0` exists. -/
theorem analyze_header_no_valid_rows (pf : List Char → Option ℚ) (rsqrt rlog : ℚ → ℚ)
    (lines : List String) (thr : ℚ) (i : Nat)
    (hheader : findHeader lines = some i)
    (hrows : (lines.drop (i + 1)).filterMap (parseRow pf) = []) :
    load_csv_data pf lines = Except.ok [] ∧
      analyze pf rsqrt rlog lines thr = Except.ok none := by
  have hload : load_csv_data pf lines = Except.ok [] := by
    simp [load_csv_data, hheader, hrows]
  exact ⟨hload, by simp [analyze, hload, Except.map, calculate_analysis]⟩

/-- C4: for every sample sequence and positive threshold, the trigger
detector emits an event at index `i` exactly when `i ≥ 1`, the detector state
entering iteration `i` is `BelowOrAt` (`in_trigger = False`), the previous
sample's magnitude is `≤ threshold` and the current sample's magnitude is
`> threshold`; the emitted event carries the current sample's time, index and
signed channel-2 value; and no event is ever emitted at index `0`. -/
theorem trigger_event_characterization (data : List Sample) (thr : ℚ)
    (hthr : 0 < thr) (i : Nat) :
    ((∃ ev ∈ trigger_points data thr, ev.index = i) ↔
      (1 ≤ i ∧ stateAfter data thr (i - 1) = false ∧
        |ch2At data (i - 1)| ≤ thr ∧ thr < |ch2At data i|)) ∧
    (∀ ev ∈ trigger_points data thr, ev.index = i →
      ev = { time := timeAt data i, index := i, current := ch2At data i }) ∧
    (∀ ev ∈ trigger_points data thr, ev.index ≠ 0) := by
  refine ⟨⟨?_, ?_⟩, ?_, ?_⟩
  · rintro ⟨ev, hev, hevi⟩
    obtain ⟨j, hj1, -, hemit, rfl⟩ := (mem_trigger_points data thr ev).1 hev
    have hji : j = i := hevi
    subst hji
    obtain ⟨m, rfl⟩ : ∃ m, j = m + 1 := ⟨j - 1, by omega⟩
    simp only [emittedAt, Bool.and_eq_true, Bool.not_eq_true',
      decide_eq_true_eq] at hemit
    obtain ⟨⟨hs, hlt⟩, hle⟩ := hemit
    exact ⟨by omega, by simpa using hs, by simpa using hle, hlt⟩
  · rintro ⟨hi1, hs, hle, hlt⟩
    obtain ⟨m, rfl⟩ : ∃ m, i = m + 1 := ⟨i - 1, by omega⟩
    simp only [Nat.add_sub_cancel] at hs hle
    have hemit : emittedAt data thr (m + 1) = true := by
      simp [emittedAt, hs, hle, hlt]
    have hlen : m + 1 < data.length := emittedAt_lt_length data thr hthr hemit
    exact ⟨mkEvent data (m + 1),
      (mem_trigger_points data thr (mkEvent data (m + 1))).2
        ⟨m + 1, by omega, by omega, hemit, rfl⟩, rfl⟩
  · intro ev hev hevi
    obtain ⟨j, -, -, -, rfl⟩ := (mem_trigger_points data thr ev).1 hev
    have hji : j = i := hevi
    subst hji
    rfl
  · intro ev hev
    obtain ⟨j, hj1, -, -, rfl⟩ := (mem_trigger_points data thr ev).1 hev
    simp only [mkEvent, ne_eq]
    omega

/-- C5 (hysteresis): for every sample sequence and positive threshold,
between any two consecutive emitted trigger events at indices `i < j` there
is a sample index `k` with `i ≤ k < j` whose channel-2 magnitude is at most
the threshold; in particular the detector never emits twice while the
magnitude stays continuously above the threshold. -/
theorem trigger_hysteresis (data : List Sample) (thr : ℚ) (hthr : 0 < thr)
    (n : Nat) (hn : n + 1 < (trigger_points data thr).length) :
    ∃ k, ((trigger_points data thr).getD n evDefault).index ≤ k ∧
      k < ((trigger_points data thr).getD (n + 1) evDefault).index ∧
      |ch2At data k| ≤ thr := by
  have hn0 : n < (trigger_points data thr).length := by omega
  rw [List.getD_eq_getElem _ _ hn0, List.getD_eq_getElem _ _ hn]
  have hpw := trigger_points_pairwise data thr
  have hlt : (trigger_points data thr)[n].index <
      (trigger_points data thr)[n + 1].index := by
    have hg := List.pairwise_iff_get.1 hpw ⟨n, hn0⟩ ⟨n + 1, hn⟩ (by simp)
    simpa [List.get_eq_getElem] using hg
  have hmem : (trigger_points data thr)[n + 1] ∈ trigger_points data thr :=
    List.getElem_mem hn
  obtain ⟨j, hj1, -, hemit, hev⟩ := (mem_trigger_points data thr _).1 hmem
  obtain ⟨m, rfl⟩ : ∃ m, j = m + 1 := ⟨j - 1, by omega⟩
  simp only [emittedAt, Bool.and_eq_true, Bool.not_eq_true',
    decide_eq_true_eq] at hemit
  obtain ⟨⟨-, -⟩, hle⟩ := hemit
  have hidx2 : (trigger_points data thr)[n + 1].index = m + 1 := by
    rw [hev]
    rfl
  exact ⟨m, by omega, by omega, hle⟩

/-- C8 counterexample: on a concrete sample sequence whose times decrease
(`10, 9, 8, 7` ms) the detector emits two events, at times `9` then `7` —
the emitted times are not strictly increasing, refuting the claim for
arbitrary sample sequences. -/
theorem trigger_times_not_increasing_counterexample :
    ¬ List.Pairwise (fun a b : TriggerEvent => a.time < b.time)
      (trigger_points fallingTimeData 1) := by
  have hpts : trigger_points fallingTimeData 1 =
      [{ time := 9, index := 1, current := 2 },
       { time := 7, index := 3, current := 2 }] := by
    norm_num [trigger_points, triggerLoop, triggerStep, List.range',
      ch2At, timeAt, mkEvent, fallingTimeData, abs_of_nonneg]
  rw [hpts]
  intro h
  have h97 : (9 : ℚ) < 7 := by
    have := List.pairwise_cons.1 h
    exact this.1 _ (List.mem_singleton.2 rfl)
  norm_num at h97

/-- C8 (amended): for every sample sequence whose sample times are strictly
increasing, and every positive threshold, the times of the emitted trigger
events, in emission order, are strictly increasing. -/
theorem trigger_times_strictly_increasing (data : List Sample) (thr : ℚ)
    (hthr : 0 < thr)
    (hmono : List.Pairwise (fun a b : Sample => a.time < b.time) data) :
    List.Pairwise (fun a b : TriggerEvent => a.time < b.time)
      (trigger_points data thr) := by
  refine List.Pairwise.imp_of_mem ?_ (trigger_points_pairwise data thr)
  intro a b ha hb hab
  obtain ⟨i, hi1, -, hei, rfl⟩ := (mem_trigger_points data thr a).1 ha
  obtain ⟨j, hj1, -, hej, rfl⟩ := (mem_trigger_points data thr b).1 hb
  have hilen : i < data.length := emittedAt_lt_length data thr hthr hei
  have hjlen : j < data.length := emittedAt_lt_length data thr hthr hej
  have hij : i < j := hab
  have hg := List.pairwise_iff_get.1 hmono ⟨i, hilen⟩ ⟨j, hjlen⟩ hij
  show (mkEvent data i).time < (mkEvent data j).time
  simp only [mkEvent, timeAt]
  rw [List.getD_eq_getElem _ _ hilen, List.getD_eq_getElem _ _ hjlen]
  simpa [List.get_eq_getElem] using hg

/-- C6: for every nonempty sample sequence (and any models of
`np.sqrt`/`np.log`), `calculate_analysis` reports channel 2's peak-to-peak as
`max - min` in its native unit, channel 1's peak-to-peak as
`(max - min) * 1000` (millivolts), and both reported values are
nonnegative. -/
theorem peak_to_peak_correct (rsqrt rlog : ℚ → ℚ) (data : List Sample)
    (thr : ℚ) (h : data ≠ []) :
    ∃ res, calculate_analysis rsqrt rlog data thr = some res ∧
      res.ch2.peak_to_peak =
        listMax (data.map (fun d => d.ch2)) - listMin (data.map (fun d => d.ch2)) ∧
      res.ch1.peak_to_peak =
        (listMax (data.map (fun d => d.ch1)) - listMin (data.map (fun d => d.ch1)))
          * 1000 ∧
      0 ≤ res.ch2.peak_to_peak ∧ 0 ≤ res.ch1.peak_to_peak := by
  have hne : ¬ data.isEmpty = true := by
    simp [List.isEmpty_iff, h]
  rw [calculate_analysis, if_neg hne]
  refine ⟨_, rfl, rfl, rfl, ?_, ?_⟩
  · have hmapne : data.map (fun d => d.ch2) ≠ [] := by
      simp [h]
    exact sub_nonneg.2 (listMin_le_listMax hmapne)
  · have hmapne : data.map (fun d => d.ch1) ≠ [] := by
      simp [h]
    exact mul_nonneg (sub_nonneg.2 (listMin_le_listMax hmapne)) (by norm_num)

/-- C9: for every nonempty sample sequence, the metadata computation is total
(no division-by-zero error): `data_points` is the sample count,
`duration_ms = max(time) - min(time)`, `sample_rate_hz` equals
`data_points / (duration_ms / 1000)` when the duration is positive and is
exactly `0` otherwise; a single-sample series yields duration `0` and sample
rate `0` as a valid result. -/
theorem metadata_sample_rate_correct (rsqrt rlog : ℚ → ℚ) (data : List Sample)
    (thr : ℚ) (h : data ≠ []) :
    ∃ res, calculate_analysis rsqrt rlog data thr = some res ∧
      res.metadata.data_points = data.length ∧
      res.metadata.duration =
        listMax (data.map (fun d => d.time)) - listMin (data.map (fun d => d.time)) ∧
      res.metadata.sample_rate =
        (if 0 < res.metadata.duration then
          (data.length : ℚ) / (res.metadata.duration / 1000) else 0) ∧
      (data.length = 1 → res.metadata.duration = 0 ∧ res.metadata.sample_rate = 0) := by
  have hne : ¬ data.isEmpty = true := by
    simp [List.isEmpty_iff, h]
  rw [calculate_analysis, if_neg hne]
  refine ⟨_, rfl, rfl, rfl, ?_, ?_⟩
  · by_cases hlen : 1 < data.length
    · simp only [if_pos hlen]
    · have hlen1 : data.length = 1 := by
        have : data.length ≠ 0 := by
          simp [h]
        omega
      obtain ⟨d, rfl⟩ := List.length_eq_one.1 hlen1
      simp [listMax, listMin]
  · intro hlen1
    obtain ⟨d, rfl⟩ := List.length_eq_one.1 hlen1
    simp [listMax, listMin]

/-! ## Witnesses -/

/-- Witness for C1 (amended), at the header-plus-junk input. -/
theorem analyze_header_no_valid_rows_witness :
    load_csv_data pfNone headerJunkLines = Except.ok [] ∧
      analyze pfNone id id headerJunkLines 1 = Except.ok none :=
  analyze_header_no_valid_rows pfNone id id headerJunkLines 1 0 (by rfl) (by rfl)

/-- Witness for C4, at a two-sample rising edge, index 1. -/
theorem trigger_event_characterization_witness :
    ((∃ ev ∈ trigger_points risingData 1, ev.index = 1) ↔
      (1 ≤ 1 ∧ stateAfter risingData 1 (1 - 1) = false ∧
        |ch2At risingData (1 - 1)| ≤ 1 ∧ 1 < |ch2At risingData 1|)) ∧
    (∀ ev ∈ trigger_points risingData 1, ev.index = 1 →
      ev = { time := timeAt risingData 1, index := 1, current := ch2At risingData 1 }) ∧
    (∀ ev ∈ trigger_points risingData 1, ev.index ≠ 0) :=
  trigger_event_characterization risingData 1 (by norm_num) 1

/-- Witness for C5, at a four-sample double rising edge, consecutive pair 0. -/
theorem trigger_hysteresis_witness :
    ∃ k, ((trigger_points doubleRiseData 1).getD 0 evDefault).index ≤ k ∧
      k < ((trigger_points doubleRiseData 1).getD (0 + 1) evDefault).index ∧
      |ch2At doubleRiseData k| ≤ 1 :=
  trigger_hysteresis doubleRiseData 1 (by norm_num) 0
    (by norm_num [trigger_points, triggerLoop, triggerStep, List.range',
      ch2At, timeAt, mkEvent, doubleRiseData, abs_of_nonneg])

/-- Witness for C6, at a single-sample sequence. -/
theorem peak_to_peak_correct_witness :
    ∃ res, calculate_analysis id id oneSample 1 = some res ∧
      res.ch2.peak_to_peak =
        listMax (oneSample.map (fun d => d.ch2)) -
          listMin (oneSample.map (fun d => d.ch2)) ∧
      res.ch1.peak_to_peak =
        (listMax (oneSample.map (fun d => d.ch1)) -
          listMin (oneSample.map (fun d => d.ch1))) * 1000 ∧
      0 ≤ res.ch2.peak_to_peak ∧ 0 ≤ res.ch1.peak_to_peak :=
  peak_to_peak_correct id id oneSample 1 (by simp [oneSample])

/-- Witness for C7, at a header-free input. -/
theorem load_csv_data_no_header_witness :
    load_csv_data pfNone noHeaderLines = Except.error FormatError.headerNotFound ∧
      analyze pfNone id id noHeaderLines 1 = Except.error FormatError.headerNotFound :=
  load_csv_data_no_header pfNone id id noHeaderLines 1 (by decide)

/-- Witness for C8 (amended), at a time-sorted double rising edge. -/
theorem trigger_times_strictly_increasing_witness :
    List.Pairwise (fun a b : TriggerEvent => a.time < b.time)
      (trigger_points doubleRiseData 1) :=
  trigger_times_strictly_increasing doubleRiseData 1 (by norm_num) (by decide)

/-- Witness for C9, at a single-sample sequence. -/
theorem metadata_sample_rate_correct_witness :
    ∃ res, calculate_analysis id id oneSample 1 = some res ∧
      res.metadata.data_points = oneSample.length ∧
      res.metadata.duration =
        listMax (oneSample.map (fun d => d.time)) -
          listMin (oneSample.map (fun d => d.time)) ∧
      res.metadata.sample_rate =
        (if 0 < res.metadata.duration then
          (oneSample.length : ℚ) / (res.metadata.duration / 1000) else 0) ∧
      (oneSample.length = 1 →
        res.metadata.duration = 0 ∧ res.metadata.sample_rate = 0) :=
  metadata_sample_rate_correct id id oneSample 1 (by simp [oneSample])

end Oscilloscope
